import Mathlib

/-!
Verification development for the video-review pipeline in `app.py`.

Strings are modelled as `List Char`; Python float arithmetic in the
similarity computation is modelled as exact rational arithmetic (`ℚ`);
Python exceptions are modelled with `Except`.
-/

set_option autoImplicit false

/-- Python `str.strip()`: remove leading and trailing whitespace. -/
def pyStrip (s : List Char) : List Char :=
  ((s.dropWhile Char.isWhitespace).reverse.dropWhile Char.isWhitespace).reverse

/-- Python `str.split(c)` on a one-character separator (`url.split sep`, line 158). -/
def splitOnChar (c : Char) : List Char → List (List Char)
  | [] => [[]]
  | x :: xs =>
      let r := splitOnChar c xs
      if x = c then [] :: r else (x :: r.headI) :: r.tail

/-- One OCR token: recognized text and its confidence (`ocr_data['text'][i]`,
`int(ocr_data['conf'][i])`). -/
structure OcrToken where
  text : List Char
  conf : ℤ
deriving DecidableEq

/-- The loop of lines 78–84: keep tokens with confidence > 60, strip each,
keep the non-empty results, in recognition order (`current_text_parts`). -/
def collectTextParts : List OcrToken → List (List Char)
  | [] => []
  | tok :: rest =>
      if tok.conf > 60 then
        let t := pyStrip tok.text
        if t ≠ [] then t :: collectTextParts rest else collectTextParts rest
      else collectTextParts rest

/-- Line 85: join `current_text_parts` with the empty separator. -/
def currentTextBlock (ocr : List OcrToken) : List Char :=
  (collectTextParts ocr).flatten

/-- Modelled from the spec's words for claim comparison: the concatenation,
in recognition order with no separator, of exactly the raw tokens whose
confidence is strictly greater than 60. -/
def specHighConfConcat (ocr : List OcrToken) : List Char :=
  ((ocr.filter (fun tok => tok.conf > 60)).map OcrToken.text).flatten

/-- Levenshtein edit distance (`Levenshtein.distance`, line 94). -/
def levDistance : List Char → List Char → ℕ
  | [], ys => ys.length
  | x :: xs, [] => (x :: xs).length
  | x :: xs, y :: ys =>
      if x = y then levDistance xs ys
      else 1 + min (levDistance xs ys)
              (min (levDistance (x :: xs) ys) (levDistance xs (y :: ys)))
termination_by xs ys => xs.length + ys.length
decreasing_by all_goals (simp [List.length]; try omega)

/-- The novelty decision of lines 87–96: `is_new_subtitle`. -/
def isNewSubtitle (current last : List Char) : Bool :=
  if current ≠ [] then
    if last = [] then true
    else
      let maxLen := max current.length last.length
      if maxLen > 0 then
        decide ((1 : ℚ) - (levDistance current last : ℚ) / (maxLen : ℚ) < 9/10)
      else false
  else false

/-- A detected telop: timestamp, encoded still frame (opaque payload), text
(`telop_screenshots` entries, line 101). -/
structure TelopEvent where
  timestamp : ℚ
  image : ℕ
  text : List Char
deriving DecidableEq

/-- Lines 87–102 for one sampled frame: decide novelty; on novel emit the
event and update `last_text_block`, else leave the state unchanged. -/
def telopStep (timestamp : ℚ) (image : ℕ) (current last : List Char) :
    Option TelopEvent × List Char :=
  if isNewSubtitle current last then
    (some ⟨timestamp, image, current⟩, current)
  else (none, last)

/-- The frame-sampling skeleton of lines 68–73: walk the decoded frames with
the running `frame_count`; a frame is sampled when
`frame_count % math.ceil(fps) == 0`, with timestamp `frame_count / fps`.
The sequence ends when the source is exhausted. -/
def sampleFrames {F : Type} (fps : ℚ) : List F → ℕ → List (ℚ × F)
  | [], _ => []
  | f :: rest, n =>
      if n % ⌈fps⌉₊ = 0 then ((n : ℚ) / fps, f) :: sampleFrames fps rest (n + 1)
      else sampleFrames fps rest (n + 1)

/-- One decoded frame for the detection loop: the (already encoded) frame
payload and the outcome of running the OCR engine on its lower half —
`Except.error` models a raised OCR engine exception. -/
structure FrameData where
  image : ℕ
  ocr : Except Unit (List OcrToken)

/-- The telop-detection loop of lines 68–107: for each sampled frame run OCR,
build `current_text_block`, apply the novelty step, and accumulate the emitted
events in order.  An OCR exception is not caught anywhere in the loop (the
function body has only a `finally`), so it aborts the whole run: modelled by
returning `Except.error`. -/
def detectTelops (fps : ℚ) : List FrameData → ℕ → List Char →
    Except Unit (List TelopEvent)
  | [], _, _ => .ok []
  | f :: rest, n, last =>
      if n % ⌈fps⌉₊ = 0 then
        match f.ocr with
        | .error e => .error e
        | .ok ocrData =>
            match telopStep ((n : ℚ) / fps) f.image (currentTextBlock ocrData) last with
            | (some ev, last') =>
                (detectTelops fps rest (n + 1) last').map (fun evs => ev :: evs)
            | (none, last') => detectTelops fps rest (n + 1) last'
      else detectTelops fps rest (n + 1) last

/-- Filesystem-relevant state of one `process_video` run: the `video_path`
variable (None until the download succeeds) and whether the downloaded
temporary media file currently exists on disk. -/
structure RunState where
  videoPath : Option ℕ
  tempExists : Bool
deriving DecidableEq

/-- The `try` body of lines 40–108, with the three fallible stages abstracted
by their outcomes: a successful download sets `video_path` and creates the
temporary file; transcription and telop detection may fail afterwards.  The
final state is returned on every path, as the `finally` sees it. -/
def pipelineBody {E V T : Type} (dl : Except E ℕ) (tr : Except E V)
    (dt : Except E T) (s : RunState) : Except E (V × T) × RunState :=
  match dl with
  | .error e => (.error e, s)
  | .ok p =>
      let s1 : RunState := ⟨some p, true⟩
      match tr with
      | .error e => (.error e, s1)
      | .ok v =>
          match dt with
          | .error e => (.error e, s1)
          | .ok t => (.ok (v, t), s1)

/-- Lines 109–110, the `finally` block: if `video_path` is set and the file
exists, remove it. -/
def cleanupStep (s : RunState) : RunState :=
  match s.videoPath with
  | none => s
  | some _ => if s.tempExists then { s with tempExists := false } else s

/-- `process_video` at the granularity of its stages: run the `try` body,
then the `finally` cleanup on whatever state the body left, on every exit
path (success or error). -/
def processVideoRun {E V T : Type} (dl : Except E ℕ) (tr : Except E V)
    (dt : Except E T) (s : RunState) : Except E (V × T) × RunState :=
  let r := pipelineBody dl tr dt s
  (r.1, cleanupStep r.2)

/-- One transcript segment (`voice_data` entries, line 57). -/
structure VoiceSeg where
  timestamp : ℚ
  text : List Char
deriving DecidableEq

/-- A fused review event: the dictionaries of lines 136 and 138, tagged by
their `'type'` field. -/
inductive ReviewEvent
  | voice (timestamp : ℚ) (text : List Char)
  | telop (timestamp : ℚ) (image : ℕ) (text : List Char)
deriving DecidableEq

/-- Timestamp of a review event. -/
def ReviewEvent.timestamp : ReviewEvent → ℚ
  | .voice t _ => t
  | .telop t _ _ => t

/-- Whether the event carries the `'voice'` tag. -/
def ReviewEvent.isVoice : ReviewEvent → Bool
  | .voice _ _ => true
  | .telop _ _ _ => false

/-- Python `int()` on a real number: truncation toward zero (line 142). -/
def pyInt (q : ℚ) : ℤ := if 0 ≤ q then ⌊q⌋ else ⌈q⌉

/-- `time_key = int(event['timestamp'])` (line 142). -/
def eventKey (e : ReviewEvent) : ℤ := pyInt e.timestamp

/-- Lines 134–138: tag every voice segment then every telop screenshot as
review events, keeping each stream's own order. -/
def allEvents (voiceData : List VoiceSeg) (telops : List TelopEvent) :
    List ReviewEvent :=
  voiceData.map (fun v => .voice v.timestamp v.text) ++
    telops.map (fun t => .telop t.timestamp t.image t.text)

/-- A bucket's two sublists: `{'voice': [...], 'telop': [...]}` (line 144). -/
abbrev Bucket := List ReviewEvent × List ReviewEvent

/-- Lines 146–149: append the event to its bucket's sublist for its stream. -/
def addToBucket (e : ReviewEvent) (b : Bucket) : Bucket :=
  if e.isVoice then (b.1 ++ [e], b.2) else (b.1, b.2 ++ [e])

/-- One iteration of the grouping loop (lines 141–149) on the
insertion-ordered dictionary, modelled as an association list: update the
entry for the event's key, or append a fresh entry at the end. -/
def insertEvent (e : ReviewEvent) : List (ℤ × Bucket) → List (ℤ × Bucket)
  | [] => [(eventKey e, addToBucket e ([], []))]
  | (k, b) :: rest =>
      if k = eventKey e then (k, addToBucket e b) :: rest
      else (k, b) :: insertEvent e rest

/-- `grouped_events` after the loop of lines 140–149. -/
def groupedEvents (events : List ReviewEvent) : List (ℤ × Bucket) :=
  events.foldl (fun g e => insertEvent e g) []

/-- Dictionary lookup on the association list. -/
def findBucket (k : ℤ) : List (ℤ × Bucket) → Option Bucket
  | [] => none
  | (k', b) :: rest => if k' = k then some b else findBucket k rest

/-- Line 152: `sorted_timestamps = sorted(grouped_events.keys())`. -/
def sortedTimestamps (g : List (ℤ × Bucket)) : List ℤ :=
  (g.map Prod.fst).insertionSort (· ≤ ·)

/-- Line 158: the per-bucket deep link
`f"{youtube_url.split(sep)[0]}&t={ts}s"` with `sep` the ampersand. -/
def jumpUrl (url : List Char) (ts : ℤ) : List Char :=
  (splitOnChar '&' url).headI ++ ("&t=".data ++ ((toString ts).data ++ "s".data))

/-- Componentwise append of buckets. -/
def bucketAppend (a b : Bucket) : Bucket := (a.1 ++ b.1, a.2 ++ b.2)

/-- The bucket the grouping loop builds for key `k`: the voice-tagged events
with key `k` in stream order, and the telop-tagged events with key `k` in
stream order. -/
def bucketOf (k : ℤ) (evs : List ReviewEvent) : Bucket :=
  (evs.filter (fun e => e.isVoice && decide (eventKey e = k)),
   evs.filter (fun e => !e.isVoice && decide (eventKey e = k)))

/-- Concrete fusion input: one voice segment at `t = 12.3` and one telop
event at `t = 12.9`. -/
def fusionVoiceExample : List VoiceSeg := [⟨123/10, "hi".data⟩]

/-- The telop half of the concrete fusion input. -/
def fusionTelopExample : List TelopEvent := [⟨129/10, 0, "cap".data⟩]

theorem headI_splitOnChar (c : Char) (l : List Char) :
    (splitOnChar c l).headI = l.takeWhile (fun x => x != c) := by
  induction l with
  | nil => rfl
  | cons x xs ih => by_cases h : x = c <;> simp [splitOnChar, h, ih]

theorem currentTextBlock_eq_filter (ocr : List OcrToken) :
    currentTextBlock ocr =
      ((ocr.filter (fun t => t.conf > 60)).map (fun t => pyStrip t.text)).flatten := by
  induction ocr with
  | nil => rfl
  | cons t rest ih =>
      by_cases h : t.conf > 60
      · by_cases he : pyStrip t.text = [] <;>
          simp [currentTextBlock, collectTextParts, h, he, ← ih]
      · simp [currentTextBlock, collectTextParts, h, ← ih]

theorem isNewSubtitle_of_ne (current last : List Char) (hc : current ≠ [])
    (hl : last ≠ []) :
    isNewSubtitle current last =
      decide ((1 : ℚ) - (levDistance current last : ℚ) /
        (max current.length last.length : ℚ) < 9/10) := by
  have hpos : 0 < max current.length last.length :=
    lt_of_lt_of_le (List.length_pos.mpr hc) (le_max_left _ _)
  simp [isNewSubtitle, hc, hl, hpos]

theorem bucketAppend_nil_right (b : Bucket) : bucketAppend b ([], []) = b := by
  simp [bucketAppend]

theorem bucketAppend_assoc (a b c : Bucket) :
    bucketAppend (bucketAppend a b) c = bucketAppend a (bucketAppend b c) := by
  simp [bucketAppend]

theorem addToBucket_eq_append (e : ReviewEvent) (b : Bucket) :
    addToBucket e b = bucketAppend b (addToBucket e ([], [])) := by
  by_cases h : e.isVoice <;> simp [addToBucket, bucketAppend, h]

theorem bucketOf_nil (k : ℤ) : bucketOf k [] = ([], []) := rfl

theorem bucketOf_cons (k : ℤ) (e : ReviewEvent) (evs : List ReviewEvent) :
    bucketOf k (e :: evs) =
      if eventKey e = k then
        bucketAppend (addToBucket e ([], [])) (bucketOf k evs)
      else bucketOf k evs := by
  by_cases hk : eventKey e = k <;> by_cases hv : e.isVoice <;>
    simp [bucketOf, addToBucket, bucketAppend, hk, hv]

theorem findBucket_insertEvent (e : ReviewEvent) (g : List (ℤ × Bucket)) (k : ℤ) :
    findBucket k (insertEvent e g) =
      if eventKey e = k then
        some (addToBucket e ((findBucket k g).getD ([], [])))
      else findBucket k g := by
  induction g with
  | nil => by_cases h : eventKey e = k <;> simp [insertEvent, findBucket, h]
  | cons p g ih =>
      obtain ⟨k', b⟩ := p
      by_cases h1 : k' = eventKey e
      · by_cases h2 : k' = k <;>
          simp_all [insertEvent, findBucket]
      · by_cases h2 : k' = k
        · subst h2
          simp [insertEvent, h1, findBucket, Ne.symm h1]
        · simp [insertEvent, h1, findBucket, h2, ih]

theorem findBucket_foldl_some (evs : List ReviewEvent) :
    ∀ (g : List (ℤ × Bucket)) (k : ℤ) (b : Bucket), findBucket k g = some b →
      findBucket k (evs.foldl (fun acc e => insertEvent e acc) g) =
        some (bucketAppend b (bucketOf k evs)) := by
  induction evs with
  | nil => intro g k b h; simpa [bucketOf_nil, bucketAppend_nil_right] using h
  | cons e evs ih =>
      intro g k b h
      rw [List.foldl_cons]
      by_cases hk : eventKey e = k
      · have h' : findBucket k (insertEvent e g) = some (addToBucket e b) := by
          rw [findBucket_insertEvent]; simp [hk, h]
        rw [ih _ _ _ h', bucketOf_cons, if_pos hk, addToBucket_eq_append,
          bucketAppend_assoc]
      · have h' : findBucket k (insertEvent e g) = some b := by
          rw [findBucket_insertEvent]; simp [hk, h]
        rw [ih _ _ _ h', bucketOf_cons, if_neg hk]

theorem findBucket_foldl_none (evs : List ReviewEvent) :
    ∀ (g : List (ℤ × Bucket)) (k : ℤ), findBucket k g = none →
      findBucket k (evs.foldl (fun acc e => insertEvent e acc) g) =
        if evs.any (fun e => decide (eventKey e = k)) then some (bucketOf k evs)
        else none := by
  induction evs with
  | nil => intro g k h; simpa using h
  | cons e evs ih =>
      intro g k h
      rw [List.foldl_cons]
      by_cases hk : eventKey e = k
      · have h' : findBucket k (insertEvent e g) = some (addToBucket e ([], [])) := by
          rw [findBucket_insertEvent]; simp [hk, h]
        rw [findBucket_foldl_some evs _ _ _ h', bucketOf_cons, if_pos hk]
        simp [hk]
      · have h' : findBucket k (insertEvent e g) = none := by
          rw [findBucket_insertEvent]; simp [hk, h]
        rw [ih _ _ h', bucketOf_cons, if_neg hk]
        simp [hk]

theorem findBucket_groupedEvents (evs : List ReviewEvent) (k : ℤ) :
    findBucket k (groupedEvents evs) =
      if evs.any (fun e => decide (eventKey e = k)) then some (bucketOf k evs)
      else none :=
  findBucket_foldl_none evs [] k rfl

theorem map_fst_insertEvent (e : ReviewEvent) (g : List (ℤ × Bucket)) :
    (insertEvent e g).map Prod.fst =
      if eventKey e ∈ g.map Prod.fst then g.map Prod.fst
      else g.map Prod.fst ++ [eventKey e] := by
  induction g with
  | nil => simp [insertEvent]
  | cons p g ih =>
      obtain ⟨k', b⟩ := p
      by_cases h1 : k' = eventKey e
      · simp [insertEvent, h1]
      · simp [insertEvent, h1, ih, Ne.symm h1]
        by_cases h2 : eventKey e ∈ g.map Prod.fst <;> simp [h2, Ne.symm h1]

theorem nodup_map_fst_insertEvent (e : ReviewEvent) (g : List (ℤ × Bucket))
    (h : (g.map Prod.fst).Nodup) : ((insertEvent e g).map Prod.fst).Nodup := by
  rw [map_fst_insertEvent]
  by_cases hm : eventKey e ∈ g.map Prod.fst
  · simpa [hm] using h
  · simp [hm, List.nodup_append, h]

theorem nodup_map_fst_foldl (evs : List ReviewEvent) :
    ∀ g : List (ℤ × Bucket), (g.map Prod.fst).Nodup →
      ((evs.foldl (fun acc e => insertEvent e acc) g).map Prod.fst).Nodup := by
  induction evs with
  | nil => intro g h; simpa using h
  | cons e evs ih =>
      intro g h
      rw [List.foldl_cons]
      exact ih _ (nodup_map_fst_insertEvent e g h)

theorem nodup_map_fst_groupedEvents (evs : List ReviewEvent) :
    ((groupedEvents evs).map Prod.fst).Nodup :=
  nodup_map_fst_foldl evs [] (by simp)

theorem sampleFrames_enumFrom {F : Type} (fps : ℚ) (frames : List F) :
    ∀ n : ℕ, sampleFrames fps frames n =
      ((List.enumFrom n frames).filter (fun p => decide (⌈fps⌉₊ ∣ p.1))).map
        (fun p => ((p.1 : ℚ) / fps, p.2)) := by
  induction frames with
  | nil => intro n; rfl
  | cons f rest ih =>
      intro n
      by_cases h : n % ⌈fps⌉₊ = 0
      · have hd : ⌈fps⌉₊ ∣ n := Nat.dvd_iff_mod_eq_zero.mpr h
        simp [sampleFrames, List.enumFrom, h, hd, ih]
      · have hd : ¬ ⌈fps⌉₊ ∣ n := fun hc => h (Nat.dvd_iff_mod_eq_zero.mp hc)
        simp [sampleFrames, List.enumFrom, h, hd, ih]

theorem detectTelops_error_of_sampled_error (fps : ℚ) (frames : List FrameData) :
    ∀ (n : ℕ) (last : List Char),
      (∃ i : Fin frames.length, (n + i.val) % ⌈fps⌉₊ = 0 ∧
        (frames.get i).ocr = .error ()) →
      ∃ e, detectTelops fps frames n last = .error e := by
  induction frames with
  | nil =>
      rintro n last ⟨i, _⟩
      exact absurd i.isLt (by simp)
  | cons f rest ih =>
      rintro n last ⟨⟨i, hi⟩, hmod, herr⟩
      cases i with
      | zero =>
          refine ⟨(), ?_⟩
          have hn : n % ⌈fps⌉₊ = 0 := by simpa using hmod
          have herr0 : f.ocr = .error () := by simpa [List.get] using herr
          simp [detectTelops, hn, herr0]
      | succ j =>
          have hj : j < rest.length := by simpa using hi
          have hmod' : ((n + 1) + j) % ⌈fps⌉₊ = 0 := by
            have : n + (j + 1) = (n + 1) + j := by omega
            rwa [this] at hmod
          have herr' : (rest.get ⟨j, hj⟩).ocr = .error () := by
            simpa [List.get] using herr
          by_cases hn : n % ⌈fps⌉₊ = 0
          · cases hocr : f.ocr with
            | error e => exact ⟨e, by simp [detectTelops, hn, hocr]⟩
            | ok ocrData =>
                cases htel : telopStep ((n : ℚ) / fps) f.image
                    (currentTextBlock ocrData) last with
                | mk ev lastNew =>
                    cases ev with
                    | some ev0 =>
                        obtain ⟨e, he⟩ := ih (n + 1) lastNew ⟨⟨j, hj⟩, hmod', herr'⟩
                        exact ⟨e, by simp [detectTelops, hn, hocr, htel, he, Except.map]⟩
                    | none =>
                        obtain ⟨e, he⟩ := ih (n + 1) lastNew ⟨⟨j, hj⟩, hmod', herr'⟩
                        exact ⟨e, by simp [detectTelops, hn, hocr, htel, he]⟩
          · obtain ⟨e, he⟩ := ih (n + 1) last ⟨⟨j, hj⟩, hmod', herr'⟩
            exact ⟨e, by simp [detectTelops, hn, he]⟩

/-- C1: for every sampled frame, the telop novelty decision satisfies: an
empty `current_text_block` emits no event and leaves `last_text_block`
unchanged; a non-empty block against an empty `last_text_block` emits an
event; with both non-empty an event is emitted iff
`1 - levenshtein(current, last) / max(len(current), len(last)) < 0.9`; and
whenever an event is emitted, `last_text_block` becomes
`current_text_block`. -/
theorem telopStep_novelty (ts : ℚ) (img : ℕ) (current last : List Char) :
    (current = [] → telopStep ts img current last = (none, last)) ∧
    (current ≠ [] → last = [] →
      (telopStep ts img current last).1 = some ⟨ts, img, current⟩) ∧
    (current ≠ [] → last ≠ [] →
      ((telopStep ts img current last).1.isSome ↔
        (1 : ℚ) - (levDistance current last : ℚ) /
          (max current.length last.length : ℚ) < 9/10)) ∧
    (∀ ev, (telopStep ts img current last).1 = some ev →
      (telopStep ts img current last).2 = current) := by
  refine ⟨?_, ?_, ?_, ?_⟩
  · intro h; simp [telopStep, isNewSubtitle, h]
  · intro hc hl; simp [telopStep, isNewSubtitle, hc, hl]
  · intro hc hl
    simp only [telopStep, isNewSubtitle_of_ne current last hc hl]
    by_cases hP : (1 : ℚ) - (levDistance current last : ℚ) /
        (max current.length last.length : ℚ) < 9/10 <;> simp [hP]
  · intro ev hev
    by_cases h : isNewSubtitle current last <;> simp [telopStep, h] at hev ⊢

/-- C1 witness: the decision evaluated concretely — an empty block emits
nothing, and current `AB` against last `C` (similarity 0) emits an event. -/
theorem telopStep_novelty_witness :
    telopStep 0 0 [] ['a'] = (none, ['a']) ∧
    (telopStep 0 0 "AB".data "C".data).1.isSome = true := by
  constructor
  · exact (telopStep_novelty 0 0 [] ['a']).1 rfl
  · refine ((telopStep_novelty 0 0 "AB".data "C".data).2.2.1
      (by decide) (by decide)).mpr ?_
    have h : levDistance "AB".data "C".data = 2 := by simp [levDistance]
    rw [h]
    norm_num

/-- C2 counterexample: a lone token `" A "` with confidence 90 is stripped
before concatenation, so `current_text_block` is `"A"`, not the raw
concatenation `" A "` of the high-confidence tokens that the claim
describes. -/
theorem currentTextBlock_strip_counterexample :
    currentTextBlock [⟨" A ".data, 90⟩] ≠ specHighConfConcat [⟨" A ".data, 90⟩] := by
  decide

/-- C2 (amended): `current_text_block` equals the concatenation, in
recognition order and with no separator, of the whitespace-stripped texts of
exactly those tokens whose confidence is strictly greater than 60; tokens
with confidence ≤ 60 never contribute any character. -/
theorem currentTextBlock_spec (ocr : List OcrToken) :
    currentTextBlock ocr =
      ((ocr.filter (fun t => t.conf > 60)).map (fun t => pyStrip t.text)).flatten :=
  currentTextBlock_eq_filter ocr

/-- C3: bucketing is exhaustive and non-overlapping — for non-negative
timestamps every event's key is the floor of its timestamp, the bucket keys
are pairwise distinct, each key's bucket holds exactly the events whose key
matches (in stream order), and every event lies in the bucket of its own
key. -/
theorem groupedEvents_exhaustive (evs : List ReviewEvent)
    (h : ∀ e, e ∈ evs → 0 ≤ e.timestamp) :
    (∀ e, e ∈ evs → eventKey e = ⌊e.timestamp⌋) ∧
    ((groupedEvents evs).map Prod.fst).Nodup ∧
    (∀ k : ℤ, findBucket k (groupedEvents evs) =
      if evs.any (fun e => decide (eventKey e = k)) then some (bucketOf k evs)
      else none) ∧
    (∀ e, e ∈ evs → ∃ b, findBucket (eventKey e) (groupedEvents evs) = some b ∧
      (e ∈ b.1 ∨ e ∈ b.2)) := by
  refine ⟨?_, nodup_map_fst_groupedEvents evs,
    fun k => findBucket_groupedEvents evs k, ?_⟩
  · intro e he
    simp [eventKey, pyInt, h e he]
  · intro e he
    refine ⟨bucketOf (eventKey e) evs, ?_, ?_⟩
    · rw [findBucket_groupedEvents]
      have ha : evs.any (fun x => decide (eventKey x = eventKey e)) = true :=
        List.any_eq_true.mpr ⟨e, he, by simp⟩
      simp [ha]
    · by_cases hv : e.isVoice
      · exact Or.inl (List.mem_filter.mpr ⟨he, by simp [hv]⟩)
      · exact Or.inr (List.mem_filter.mpr ⟨he, by simp [hv]⟩)

/-- C3 witness: on the concrete fusion input, the grouped keys are pairwise
distinct. -/
theorem groupedEvents_exhaustive_witness :
    ((groupedEvents (allEvents fusionVoiceExample fusionTelopExample)).map
      Prod.fst).Nodup :=
  (groupedEvents_exhaustive (allEvents fusionVoiceExample fusionTelopExample)
    (by
      intro e he
      simp [allEvents, fusionVoiceExample, fusionTelopExample] at he
      rcases he with rfl | rfl <;> norm_num [ReviewEvent.timestamp])).2.1

/-- C4: the output bucket sequence is strictly ascending by key — the sorted
key list is sorted by `<`, so in particular it has no duplicate keys. -/
theorem sortedTimestamps_strictAscending (evs : List ReviewEvent) :
    List.Sorted (· < ·) (sortedTimestamps (groupedEvents evs)) := by
  have hnd : ((groupedEvents evs).map Prod.fst).Nodup :=
    nodup_map_fst_groupedEvents evs
  have hperm := List.perm_insertionSort (· ≤ ·) ((groupedEvents evs).map Prod.fst)
  have hsorted := List.sorted_insertionSort (· ≤ ·) ((groupedEvents evs).map Prod.fst)
  simp only [sortedTimestamps]
  exact hsorted.lt_of_le (hperm.nodup_iff.mpr hnd)

/-- C5: within each output bucket the voice sublist is a subsequence of the
tagged voice stream (transcript order preserved) and the telop sublist a
subsequence of the tagged telop stream (detection order preserved), with no
cross-stream interleaving; concretely, a voice segment at 12.3 and a telop
event at 12.9 both land in bucket 12, in their respective sublists. -/
theorem bucket_stream_order (voiceData : List VoiceSeg) (telops : List TelopEvent)
    (k : ℤ) (b : Bucket)
    (h : findBucket k (groupedEvents (allEvents voiceData telops)) = some b) :
    b.1.Sublist (voiceData.map (fun v => ReviewEvent.voice v.timestamp v.text)) ∧
    b.2.Sublist (telops.map (fun t => ReviewEvent.telop t.timestamp t.image t.text)) ∧
    findBucket 12 (groupedEvents (allEvents fusionVoiceExample fusionTelopExample)) =
      some ([ReviewEvent.voice (123/10) "hi".data],
        [ReviewEvent.telop (129/10) 0 "cap".data]) := by
  have hb : b = bucketOf k (allEvents voiceData telops) := by
    rw [findBucket_groupedEvents] at h
    by_cases ha : (allEvents voiceData telops).any (fun e => decide (eventKey e = k))
    · rw [if_pos ha] at h; exact (Option.some.inj h).symm
    · rw [if_neg ha] at h; exact absurd h (by simp)
  subst hb
  refine ⟨?_, ?_, ?_⟩
  · have ht : (telops.map (fun t => ReviewEvent.telop t.timestamp t.image t.text)).filter
        (fun e => e.isVoice && decide (eventKey e = k)) = [] := by
      rw [List.filter_eq_nil_iff]
      intro e he
      obtain ⟨t, _, rfl⟩ := List.mem_map.mp he
      simp [ReviewEvent.isVoice]
    have hv : (bucketOf k (allEvents voiceData telops)).1 =
        (voiceData.map (fun v => ReviewEvent.voice v.timestamp v.text)).filter
          (fun e => e.isVoice && decide (eventKey e = k)) := by
      simp [bucketOf, allEvents, List.filter_append, ht]
    rw [hv]
    exact List.filter_sublist _
  · have hvv : (voiceData.map (fun v => ReviewEvent.voice v.timestamp v.text)).filter
        (fun e => !e.isVoice && decide (eventKey e = k)) = [] := by
      rw [List.filter_eq_nil_iff]
      intro e he
      obtain ⟨v, _, rfl⟩ := List.mem_map.mp he
      simp [ReviewEvent.isVoice]
    have htl : (bucketOf k (allEvents voiceData telops)).2 =
        (telops.map (fun t => ReviewEvent.telop t.timestamp t.image t.text)).filter
          (fun e => !e.isVoice && decide (eventKey e = k)) := by
      simp [bucketOf, allEvents, List.filter_append, hvv]
    rw [htl]
    exact List.filter_sublist _
  · norm_num [groupedEvents, allEvents, insertEvent, eventKey, pyInt, addToBucket,
      findBucket, ReviewEvent.timestamp, ReviewEvent.isVoice, fusionVoiceExample,
      fusionTelopExample]

/-- C5 witness: applied to the concrete fusion input at bucket 12, the voice
sublist is a subsequence of the tagged voice stream. -/
theorem bucket_stream_order_witness :
    ([ReviewEvent.voice (123/10) "hi".data] : List ReviewEvent).Sublist
      (fusionVoiceExample.map (fun v => ReviewEvent.voice v.timestamp v.text)) :=
  (bucket_stream_order fusionVoiceExample fusionTelopExample 12
    ([ReviewEvent.voice (123/10) "hi".data],
      [ReviewEvent.telop (129/10) 0 "cap".data])
    (by norm_num [groupedEvents, allEvents, insertEvent, eventKey, pyInt,
      addToBucket, findBucket, ReviewEvent.timestamp, ReviewEvent.isVoice,
      fusionVoiceExample, fusionTelopExample])).1

/-- C6 counterexample: with one sample per frame, an OCR engine failure on
the second frame aborts the whole detection run with the error — the loop
does not continue, so the novel caption on the third frame is never emitted
and no events are returned. -/
theorem detectTelops_abort_counterexample :
    detectTelops 1 [⟨0, .ok []⟩, ⟨1, .error ()⟩, ⟨2, .ok [⟨"HELLO".data, 90⟩]⟩] 0 []
      = .error () := by rfl

/-- C6 (amended): an OCR engine failure on a sampled frame is fatal rather
than skipped — for a positive frame rate, if the OCR result of any sampled
frame is an error, the whole detection run returns an error instead of
continuing with the remaining frames. -/
theorem detectTelops_ocr_failure_fatal (fps : ℚ) (frames : List FrameData)
    (n : ℕ) (last : List Char) (_hfps : 0 < fps)
    (h : ∃ i : Fin frames.length, (n + i.val) % ⌈fps⌉₊ = 0 ∧
      (frames.get i).ocr = .error ()) :
    ∃ e, detectTelops fps frames n last = .error e :=
  detectTelops_error_of_sampled_error fps frames n last h

/-- C6 witness: a single frame whose OCR raises makes the run abort. -/
theorem detectTelops_ocr_failure_fatal_witness :
    ∃ e, detectTelops 1 [⟨0, .error ()⟩] 0 [] = .error e :=
  detectTelops_ocr_failure_fatal 1 [⟨0, .error ()⟩] 0 [] (by norm_num)
    ⟨⟨0, by simp⟩, by decide, rfl⟩

/-- C7: whenever the download succeeded (the temporary media file was
created), the `finally` cleanup deletes it on every exit path — whatever the
outcomes of transcription and telop detection — so after the run the
temporary media file no longer exists. -/
theorem cleanup_always_deletes (E V T : Type) (dl : Except E ℕ) (tr : Except E V)
    (dt : Except E T) (p : ℕ) (hdl : dl = .ok p) :
    ((processVideoRun dl tr dt ⟨none, false⟩).2).tempExists = false := by
  subst hdl
  cases tr <;> cases dt <;> rfl

/-- C7 witness: a run whose download succeeds and whose detection stage
fails still ends without the temporary file. -/
theorem cleanup_always_deletes_witness :
    ((processVideoRun (Except.ok 0 : Except Unit ℕ) (Except.ok 0 : Except Unit ℕ)
      (Except.error () : Except Unit ℕ) ⟨none, false⟩).2).tempExists = false :=
  cleanup_always_deletes Unit ℕ ℕ _ _ _ 0 rfl

/-- C8: for a positive frame rate, the sampled frames are exactly those
whose index is a multiple of `ceil(fps)` (one sample per `ceil(fps)` decoded
frames), each with timestamp `frame_index / fps`, and the sample sequence is
finite — no longer than the decoded source. -/
theorem sampleFrames_spec {F : Type} (fps : ℚ) (frames : List F) (_hfps : 0 < fps) :
    sampleFrames fps frames 0 =
      ((List.enumFrom 0 frames).filter (fun p => decide (⌈fps⌉₊ ∣ p.1))).map
        (fun p => ((p.1 : ℚ) / fps, p.2)) ∧
    (sampleFrames fps frames 0).length ≤ frames.length := by
  refine ⟨sampleFrames_enumFrom fps frames 0, ?_⟩
  rw [sampleFrames_enumFrom fps frames 0, List.length_map]
  calc ((List.enumFrom 0 frames).filter (fun p => decide (⌈fps⌉₊ ∣ p.1))).length
      ≤ (List.enumFrom 0 frames).length := List.length_filter_le _ _
    _ = frames.length := List.enumFrom_length

/-- C8 witness: a 2.5 fps source of seven frames is sampled at indices 0, 3
and 6. -/
theorem sampleFrames_spec_witness :
    (sampleFrames (5/2 : ℚ) ([10, 20, 30, 40, 50, 60, 70] : List ℕ) 0 =
      ((List.enumFrom 0 ([10, 20, 30, 40, 50, 60, 70] : List ℕ)).filter
        (fun p => decide (⌈(5/2 : ℚ)⌉₊ ∣ p.1))).map
        (fun p => ((p.1 : ℚ) / (5/2 : ℚ), p.2))) ∧
    (sampleFrames (5/2 : ℚ) ([10, 20, 30, 40, 50, 60, 70] : List ℕ) 0).length ≤
      ([10, 20, 30, 40, 50, 60, 70] : List ℕ).length :=
  sampleFrames_spec (5/2 : ℚ) _ (by norm_num)

/-- C9: the rendered time-anchor deep link is the original URL truncated at
its first ampersand, followed by the `&t=`, the bucket key, and `s`. -/
theorem jumpUrl_spec (url : List Char) (ts : ℤ) :
    jumpUrl url ts =
      url.takeWhile (fun c => c != '&') ++
        ("&t=".data ++ ((toString ts).data ++ "s".data)) := by
  rw [jumpUrl, headI_splitOnChar]

/-- C10: the similarity division is guarded — whenever both text blocks are
non-empty the divisor `max(len(current), len(last))` is at least 1, so the
`max_len > 0` guard never fails on a reachable path and the decision equals
the unguarded similarity test (the divide-by-zero branch is unreachable). -/
theorem similarity_division_safe (current last : List Char)
    (hc : current ≠ []) (hl : last ≠ []) :
    0 < max current.length last.length ∧
    isNewSubtitle current last =
      decide ((1 : ℚ) - (levDistance current last : ℚ) /
        (max current.length last.length : ℚ) < 9/10) :=
  ⟨lt_of_lt_of_le (List.length_pos.mpr hc) (le_max_left _ _),
    isNewSubtitle_of_ne current last hc hl⟩

/-- C10 witness: at current `A`, last `B`, the divisor is positive and the
guard passes. -/
theorem similarity_division_safe_witness :
    0 < max "A".data.length "B".data.length ∧
    isNewSubtitle "A".data "B".data =
      decide ((1 : ℚ) - (levDistance "A".data "B".data : ℚ) /
        (max "A".data.length "B".data.length : ℚ) < 9/10) :=
  similarity_division_safe "A".data "B".data (by decide) (by decide)
